import Mathlib

/-
Formal model of the etsyboost caching and tag-scoring subsystem.

Source files modelled:
  * server/services/cache.ts : `FallbackCache`, `CacheService` (first revision)
    and `MemoryCache`, `CacheService` (second revision);
  * server/storage.ts : `DatabaseStorage.generateTags`, `DatabaseStorage.getEmojiForTag`
    (first revision) and `MemStorage.generateTags` (second revision).

Modelling conventions:
  * JS strings are Lean `String`s; byte buffers are `List Nat` with every
    element `< 256`.
  * Node's `Buffer.toString("base64")` / `Buffer.from(s, "base64")` pair is
    modelled by `b64EncodeBytes` / `b64DecodeBytes` (standard base64 with
    padding, as Node produces).
  * `Buffer.from(string)` (UTF-8 encoding) is modelled by `utf8Encode`.
  * JS `Array.prototype.sort` is stable (ES2019); a stable sort's output is
    uniquely determined by the comparator, so it is modelled by Mathlib's
    stable `List.insertionSort`.
  * JS `Map` (insertion-ordered, `set` on an existing key keeps its position)
    is modelled by an association list with `mapSet`.
  * `Date.now()` is an explicit `now : Nat` argument; `Math.random()` draws
    are an explicit stream `rand : Nat -> Nat` (the draw for slot `i` is
    `rand i`, reduced mod the list length exactly as
    `Math.floor(Math.random()*len)` lands in `[0, len)`).
  * Code that can throw returns `Except String`; a JS `try/catch` that merely
    logs is modelled by mapping the error branch back to a success value.
-/
namespace EtsyBoost
/-! ## Base64 (models Node `Buffer` base64 with padding) -/
def b64Chars : List Char :=
  ['A', 'B', 'C', 'D', 'E', 'F', 'G', 'H', 'I', 'J', 'K', 'L', 'M',
   'N', 'O', 'P', 'Q', 'R', 'S', 'T', 'U', 'V', 'W', 'X', 'Y', 'Z',
   'a', 'b', 'c', 'd', 'e', 'f', 'g', 'h', 'i', 'j', 'k', 'l', 'm',
   'n', 'o', 'p', 'q', 'r', 's', 't', 'u', 'v', 'w', 'x', 'y', 'z',
   '0', '1', '2', '3', '4', '5', '6', '7', '8', '9', '+', '/']
def b64Char (n : Nat) : Char := b64Chars.getD n '?'
def b64Val (c : Char) : Nat := b64Chars.indexOf c
def b64EncodeBytes : List Nat → List Char
  | [] => []
  | [b1] => [b64Char (b1 / 4), b64Char (b1 % 4 * 16), '=', '=']
  | [b1, b2] => [b64Char (b1 / 4), b64Char (b1 % 4 * 16 + b2 / 16),
                 b64Char (b2 % 16 * 4), '=']
  | b1 :: b2 :: b3 :: rest =>
      b64Char (b1 / 4) :: b64Char (b1 % 4 * 16 + b2 / 16) ::
      b64Char (b2 % 16 * 4 + b3 / 64) :: b64Char (b3 % 64) ::
      b64EncodeBytes rest
def b64DecodeBytes : List Char → List Nat
  | c1 :: c2 :: c3 :: c4 :: rest =>
      if c3 = '=' then [b64Val c1 * 4 + b64Val c2 / 16]
      else if c4 = '=' then
        [b64Val c1 * 4 + b64Val c2 / 16, b64Val c2 % 16 * 16 + b64Val c3 / 4]
      else
        (b64Val c1 * 4 + b64Val c2 / 16) ::
        (b64Val c2 % 16 * 16 + b64Val c3 / 4) ::
        (b64Val c3 % 4 * 64 + b64Val c4) :: b64DecodeBytes rest
  | _ => []
/-! ## UTF-8 (models `Buffer.from(string)`, Node's UTF-8 text encoding) -/
def utf8Char (c : Nat) : List Nat :=
  if c < 128 then [c]
  else if c < 2048 then [192 + c / 64, 128 + c % 64]
  else if c < 65536 then [224 + c / 4096, 128 + c / 64 % 64, 128 + c % 64]
  else [240 + c / 262144, 128 + c / 4096 % 64, 128 + c / 64 % 64, 128 + c % 64]
def utf8Encode (s : String) : List Nat := s.data.flatMap (fun c => utf8Char c.toNat)
/-! ## JS string and Map helpers -/
def lowerChar (c : Char) : Char :=
  if 65 ≤ c.toNat ∧ c.toNat ≤ 90 then Char.ofNat (c.toNat + 32) else c
def lowerStr (s : String) : String := String.mk (s.data.map lowerChar)
def leadsWith : List Char → List Char → Bool
  | [], _ => true
  | _ :: _, [] => false
  | a :: as, b :: bs => a == b && leadsWith as bs
def listContains : List Char → List Char → Bool
  | [], needle => leadsWith needle []
  | h :: t, needle => leadsWith needle (h :: t) || listContains t needle
def jsIncludes (hay needle : String) : Bool := listContains hay.data needle.data
def splitAux : List Char → List Char → List String
  | [], acc => [String.mk acc.reverse]
  | c :: rest, acc =>
      if c == ' ' then String.mk acc.reverse :: splitAux rest []
      else splitAux rest (c :: acc)
def jsSplitSpace (s : String) : List String := splitAux s.data []
def mapSet {α : Type} (m : List (String × α)) (k : String) (v : α) :
    List (String × α) :=
  if m.any (fun p => p.1 == k) then
    m.map (fun p => if p.1 == k then (k, v) else p)
  else m ++ [(k, v)]
/-! ## KeyDeriver: `CacheService.generateTagKey` (cache.ts) -/
def generateTagKey (title description category : String) : String :=
  "tags:" ++
    String.mk (b64EncodeBytes (utf8Encode (title ++ ":" ++ description ++ ":" ++ category)))
/-! ## FallbackCache and CacheService (cache.ts, first revision)

The external Redis client is a network collaborator: each call's outcomes are
supplied as oracle arguments (`pingOk` for `ping`, `opOk` for `setex`/`del`,
`opResult` for `get`, where `none` means the call threw). Values are modelled
as already-(de)serialized strings, since `JSON.parse ∘ JSON.stringify` is the
identity on the cached payloads. -/
structure FCEntry where
  data : String
  expiry : Nat
deriving DecidableEq, Repr
structure FCState where
  memory : List (String × FCEntry)
  hasRedis : Bool
  useMemoryCache : Bool
  connectionError : Option String
deriving DecidableEq, Repr
def FCState.initNoRedis : FCState := ⟨[], false, true, none⟩
def FCState.initRedis : FCState := ⟨[], true, false, none⟩
def useRedis (st : FCState) (pingOk : Bool) : Bool × FCState :=
  if st.useMemoryCache || !st.hasRedis then (false, st)
  else if pingOk then (true, st)
  else (false, { st with useMemoryCache := true,
                         connectionError := some "Redis ping failed" })
def memStore (st : FCState) (now : Nat) (key value : String) (expiry : Nat) :
    FCState :=
  { st with memory := mapSet st.memory key ⟨value, now + expiry * 1000⟩ }
def memFetch (st : FCState) (now : Nat) (key : String) :
    Option String × FCState :=
  match st.memory.lookup key with
  | none => (none, st)
  | some e =>
      if e.expiry < now then
        (none, { st with memory := st.memory.filter (fun p => p.1 != key) })
      else (some e.data, st)
def fallbackSet (st : FCState) (pingOk opOk : Bool) (now : Nat)
    (key value : String) (expiry : Nat) : Except String FCState :=
  if !st.useMemoryCache then
    match useRedis st pingOk with
    | (true, st1) => if opOk then .ok st1 else .error "redis setex error"
    | (false, st1) => .ok (memStore st1 now key value expiry)
  else .ok (memStore st now key value expiry)
def fallbackGet (st : FCState) (pingOk : Bool) (opResult : Option (Option String))
    (now : Nat) (key : String) : Except String (Option String × FCState) :=
  if !st.useMemoryCache then
    match useRedis st pingOk with
    | (true, st1) =>
        match opResult with
        | none => .error "redis get error"
        | some v => .ok (v, st1)
    | (false, st1) => .ok (memFetch st1 now key)
  else .ok (memFetch st now key)
def fallbackSetBinary (st : FCState) (pingOk opOk : Bool) (now : Nat)
    (key : String) (data : List Nat) (expiry : Nat) : Except String FCState :=
  fallbackSet st pingOk opOk now key (String.mk (b64EncodeBytes data)) expiry
def fallbackGetBinary (st : FCState) (pingOk : Bool)
    (opResult : Option (Option String)) (now : Nat) (key : String) :
    Except String (Option (List Nat) × FCState) :=
  match fallbackGet st pingOk opResult now key with
  | .error e => .error e
  | .ok (d, st1) =>
      .ok ((match d with
            | some s => if s = "" then none else some (b64DecodeBytes s.data)
            | none => none), st1)
def csNamespace : String := "etsyboost:"
def csKey (key : String) : String := csNamespace ++ key
def CacheService.set (st : FCState) (pingOk opOk : Bool) (now : Nat)
    (key value : String) (expiry : Nat) : Except String FCState :=
  fallbackSet st pingOk opOk now (csKey key) value expiry
def CacheService.get (st : FCState) (pingOk : Bool)
    (opResult : Option (Option String)) (now : Nat) (key : String) :
    Except String (Option String × FCState) :=
  fallbackGet st pingOk opResult now (csKey key)
def CacheService.setBinary (st : FCState) (pingOk opOk : Bool) (now : Nat)
    (key : String) (data : List Nat) (expiry : Nat) : Except String FCState :=
  fallbackSetBinary st pingOk opOk now (csKey key) data expiry
def CacheService.getBinary (st : FCState) (pingOk : Bool)
    (opResult : Option (Option String)) (now : Nat) (key : String) :
    Except String (Option (List Nat) × FCState) :=
  fallbackGetBinary st pingOk opResult now (csKey key)
def CacheService.healthCheck (st : FCState) (pingS opS : Bool) (pingG : Bool)
    (opG : Option (Option String)) (now : Nat) : Bool × FCState :=
  let testKey := csNamespace ++ "health:" ++ toString now
  match fallbackSet st pingS opS now testKey "test" 5 with
  | .error _ => (false, st)
  | .ok st1 =>
      match fallbackGet st1 pingG opG now testKey with
      | .error _ => (false, st1)
      | .ok (v, st2) => (v == some "test", st2)
/-! ## MemoryCache (cache.ts, second revision)

`calculateSize` models `JSON.stringify(data).length * 2` for string payloads:
the stringified form is the escaped string in quotes, and `.length` counts
UTF-16 code units. `currentSize` is a JS number, modelled as `Int`. -/
def jsonEscapeLen (c : Char) : Nat :=
  if c = '"' ∨ c = '\\' then 2
  else if c.toNat < 32 then
    (if c.toNat = 8 ∨ c.toNat = 9 ∨ c.toNat = 10 ∨ c.toNat = 12 ∨ c.toNat = 13
     then 2 else 6)
  else if c.toNat ≥ 65536 then 2 else 1
def calculateSize (data : String) : Nat :=
  ((data.data.map jsonEscapeLen).sum + 2) * 2
structure MCEntry where
  data : String
  expiry : Nat
  size : Nat
deriving DecidableEq, Repr
structure MCState where
  cache : List (String × MCEntry)
  maxSize : Nat
  currentSize : Int
deriving DecidableEq, Repr
def initMC (maxSizeInMB : Nat) : MCState :=
  ⟨[], maxSizeInMB * 1024 * 1024, 0⟩
def expiryLe (a b : String × MCEntry) : Prop := a.2.expiry ≤ b.2.expiry
instance : DecidableRel expiryLe := fun a b => Nat.decLe a.2.expiry b.2.expiry
instance : IsTotal (String × MCEntry) expiryLe := ⟨fun a b => Nat.le_total a.2.expiry b.2.expiry⟩
instance : IsTrans (String × MCEntry) expiryLe := ⟨fun _ _ _ hab hbc => Nat.le_trans hab hbc⟩
def evictLoop : List (String × MCEntry) → MCState → Nat → MCState
  | [], st, _ => st
  | (k, e) :: rest, st, size =>
      if st.currentSize + (size : Int) > (st.maxSize : Int) then
        evictLoop rest
          { st with cache := st.cache.filter (fun p => p.1 != k),
                    currentSize := st.currentSize - (e.size : Int) } size
      else st
def makeRoom (st : MCState) (size : Nat) : Except String MCState :=
  if size > st.maxSize then .error "Item too large for cache"
  else
    .ok (evictLoop (List.insertionSort expiryLe st.cache) st size)
def MemoryCache.set (st : MCState) (now : Nat) (key data : String)
    (expiry : Nat) : Except String MCState :=
  let size := calculateSize data
  match makeRoom st size with
  | .error _ => .ok st
  | .ok st1 =>
      let st2 := match st1.cache.lookup key with
        | some old => { st1 with currentSize := st1.currentSize - (old.size : Int) }
        | none => st1
      .ok { st2 with
              cache := mapSet st2.cache key ⟨data, now + expiry * 1000, size⟩,
              currentSize := st2.currentSize + (size : Int) }
def MemoryCache.get (st : MCState) (now : Nat) (key : String) :
    Option String × MCState :=
  match st.cache.lookup key with
  | none => (none, st)
  | some e =>
      if e.expiry < now then
        (none, { st with cache := st.cache.filter (fun p => p.1 != key),
                         currentSize := st.currentSize - (e.size : Int) })
      else (some e.data, st)
def MemoryCache.del (st : MCState) (key : String) : MCState :=
  match st.cache.lookup key with
  | none => st
  | some e =>
      { st with cache := st.cache.filter (fun p => p.1 != key),
                currentSize := st.currentSize - (e.size : Int) }
def MemoryCache.cleanup (st : MCState) (now : Nat) : MCState :=
  st.cache.foldl
    (fun acc p =>
      if p.2.expiry < now then
        { acc with cache := acc.cache.filter (fun q => q.1 != p.1),
                   currentSize := acc.currentSize - (p.2.size : Int) }
      else acc) st
def MemoryCache.setBinary (st : MCState) (now : Nat) (key : String)
    (data : List Nat) (expiry : Nat) : Except String MCState :=
  MemoryCache.set st now key (String.mk (b64EncodeBytes data)) expiry
def MemoryCache.getBinary (st : MCState) (now : Nat) (key : String) :
    Option (List Nat) × MCState :=
  let r := MemoryCache.get st now key
  ((match r.1 with
    | some s => if s = "" then none else some (b64DecodeBytes s.data)
    | none => none), r.2)
inductive MCOp where
  | opSet (now : Nat) (key data : String) (expiry : Nat)
  | opGet (now : Nat) (key : String)
  | opDel (key : String)
def applyOp (st : MCState) : MCOp → MCState
  | .opSet now k d e =>
      match MemoryCache.set st now k d e with
      | .ok s => s
      | .error _ => st
  | .opGet now k => (MemoryCache.get st now k).2
  | .opDel k => MemoryCache.del st k
def runOps (st : MCState) (ops : List MCOp) : MCState := ops.foldl applyOp st
/-! ## Tag generation (storage.ts, first revision: `DatabaseStorage`) -/
def EMOJI_MAPPINGS : List (String × List String) :=
  [("Books", ["📚", "📖", "📕"]),
   ("Art", ["🎨", "🖼️", "🎭"]),
   ("Clothing", ["👕", "👗", "🧥"]),
   ("Home Decor", ["🏠", "🪴", "🛋️"]),
   ("Toys", ["🧸", "🎮", "🎲"]),
   ("Craft Supplies", ["✂️", "🧶", "🎨"]),
   ("Vintage", ["⏰", "📻", "🗝️"]),
   ("gift", ["🎁", "🎀"]),
   ("present", ["🎁", "🎀"]),
   ("birthday", ["🎂", "🎈"]),
   ("baby", ["👶", "🍼"]),
   ("shower", ["🚿", "🎀"]),
   ("personalized", ["✨", "💝"]),
   ("custom", ["🎯", "✨"]),
   ("handmade", ["🤲", "💝"]),
   ("unique", ["💫", "⭐"]),
   ("creative", ["🎨", "✨"]),
   ("zodiac", ["⭐", "🌟"]),
   ("astrology", ["🌙", "⭐"]),
   ("celestial", ["✨", "🌙"]),
   ("stars", ["⭐", "✨"])]
def KEYWORDS_BY_CATEGORY : List (String × List String) :=
  [("Books", ["personalized book", "custom story book", "children\x27s book",
              "kids story book", "educational book", "unique story book",
              "personalized story", "custom children\x27s book"]),
   ("Art", ["personalized art", "custom art", "wall art",
            "kids room art", "nursery decor", "custom design"]),
   ("Personalized Items", ["personalized gift", "custom gift", "unique gift",
                           "made to order", "custom made", "personalized keepsake"])]
def MARKETING_PHRASES : List (String × Nat) :=
  [("perfect gift", 9), ("gift for kids", 8), ("gift for baby", 8),
   ("new baby gift", 8), ("birthday gift", 7), ("special gift", 7),
   ("unique gift idea", 8), ("personalized gift", 9), ("educational gift", 7),
   ("custom made", 8)]
def AUDIENCE_KEYWORDS : List (String × Nat) :=
  [("new parents", 9), ("little ones", 8), ("children", 7), ("kids", 7),
   ("toddler", 7), ("baby shower", 8), ("birthday", 7), ("new baby", 8),
   ("baby gift", 8), ("kids gift", 8)]
def FEATURE_KEYWORDS : List (String × Nat) :=
  [("personalized", 9), ("customized", 8), ("handmade", 7), ("unique", 7),
   ("educational", 7), ("developmental", 6), ("learning", 6), ("creative", 6)]
def SPECIALTY_KEYWORDS : List (String × Nat) :=
  [("zodiac signs", 8), ("birth chart", 7), ("astrology", 8), ("horoscope", 7),
   ("star sign", 7), ("astrological", 7), ("celestial", 6), ("stars", 5)]
def tagContent (title description : String) : String :=
  lowerStr (title ++ " " ++ description)
def containsKeyword (content keyword : String) : Bool :=
  (jsSplitSpace (lowerStr keyword)).all (fun part => jsIncludes content part)
def scoreFor (title : String) (categoryBonus : Nat) (kw : String)
    (base : Nat) : Nat :=
  min 10 (max 1 (base + categoryBonus +
    (if (jsSplitSpace kw).length > 1 then 1 else 0) +
    (if jsIncludes (lowerStr title) (lowerStr kw) then 1 else 0)))
def addScoredTags (content title : String) (keywords : List (String × Nat))
    (categoryBonus : Nat) (acc : List (String × Nat)) : List (String × Nat) :=
  keywords.foldl
    (fun m p =>
      if containsKeyword content p.1 then
        mapSet m p.1 (scoreFor title categoryBonus p.1 p.2)
      else m) acc
def stageCategory (title description category : String) : List (String × Nat) :=
  let content := tagContent title description
  ((KEYWORDS_BY_CATEGORY.lookup category).getD []).foldl
    (fun m kw => if containsKeyword content kw then mapSet m kw 9 else m) []
def stageMarketing (title description category : String) : List (String × Nat) :=
  addScoredTags (tagContent title description) title MARKETING_PHRASES 1
    (stageCategory title description category)
def stageAudience (title description category : String) : List (String × Nat) :=
  addScoredTags (tagContent title description) title AUDIENCE_KEYWORDS 1
    (stageMarketing title description category)
def stageFeature (title description category : String) : List (String × Nat) :=
  addScoredTags (tagContent title description) title FEATURE_KEYWORDS 0
    (stageAudience title description category)
def stageSpecialty (title description category : String) : List (String × Nat) :=
  let content := tagContent title description
  addScoredTags content title SPECIALTY_KEYWORDS
    (if jsIncludes content "zodiac" then 2 else 0)
    (stageFeature title description category)
def tagScoresList (title description category : String) : List (String × Nat) :=
  let content := tagContent title description
  let m1 := stageSpecialty title description category
  let m2 :=
    if jsIncludes content "story" && jsIncludes content "book" then
      mapSet (mapSet (mapSet m1 "story book" 8) "custom story book" 9)
        "personalized story book" 9
    else m1
  if jsIncludes content "child" || jsIncludes content "kid" then
    mapSet (mapSet (mapSet m2 "children gift" 8) "gift for kids" 9)
      "perfect gift for kids" 9
  else m2
def getEmojiForTag (r : Nat) (tag category : String) : String :=
  match EMOJI_MAPPINGS.find? (fun p => jsIncludes (lowerStr tag) (lowerStr p.1)) with
  | some p => p.2.getD (r % p.2.length) "✨"
  | none => ((EMOJI_MAPPINGS.lookup category).getD ["✨"]).getD 0 "✨"
structure ScoredTag where
  text : String
  score : Nat
  emoji : String
deriving DecidableEq, Repr
def scoreDesc (a b : ScoredTag) : Prop := b.score ≤ a.score
instance : DecidableRel scoreDesc := fun a b => Nat.decLe b.score a.score
instance : IsTotal ScoredTag scoreDesc := ⟨fun a b => Nat.le_total b.score a.score⟩
instance : IsTrans ScoredTag scoreDesc := ⟨fun _ _ _ hab hbc => Nat.le_trans hbc hab⟩
def pairScoreDesc (a b : String × Nat) : Prop := b.2 ≤ a.2
instance : DecidableRel pairScoreDesc := fun a b => Nat.decLe b.2 a.2
instance : IsTotal (String × Nat) pairScoreDesc := ⟨fun a b => Nat.le_total b.2 a.2⟩
instance : IsTrans (String × Nat) pairScoreDesc := ⟨fun _ _ _ hab hbc => Nat.le_trans hbc hab⟩
def tagCandidates (title description category : String) (rand : Nat → Nat) :
    List ScoredTag :=
  (tagScoresList title description category).enum.map
    (fun p => ⟨p.2.1, p.2.2, getEmojiForTag (rand p.1) p.2.1 category⟩)
def generateTags (title description category : String) (rand : Nat → Nat) :
    List ScoredTag × List String :=
  let tags :=
    (List.insertionSort scoreDesc (tagCandidates title description category rand)).take 13
  let seoTips := [
    "Include \x27personalized\x27 and \x27custom\x27 in your title for better visibility",
    "Target gift-giving occasions in your tags (birthday, baby shower, etc.)",
    "Use specific phrases like \x27perfect gift for kids\x27 in your description",
    "Highlight the customization aspects in your first few tags",
    "Consider seasonal gift-giving opportunities for " ++ lowerStr category]
  (tags, seoTips)
/-! ## Tag generation (storage.ts, second revision: `MemStorage`) -/
def KEYWORDS_BY_CATEGORY_MEM : List (String × List String) :=
  [("jewelry", ["handmade", "sterling silver", "boho", "vintage",
                "gift for her", "necklace", "bracelet", "earrings"]),
   ("art", ["wall art", "print", "original", "painting", "digital",
            "home decor", "custom"]),
   ("clothing", ["handmade", "vintage", "custom", "t-shirt", "dress",
                 "fashion", "apparel"])]
def GENERAL_KEYWORDS : List String :=
  ["handmade", "custom", "unique", "gift", "personalized"]
def dedupFirst : List String → List String
  | [] => []
  | x :: xs => x :: (dedupFirst xs).filter (fun y => y != x)
def joinComma : List String → String
  | [] => ""
  | [x] => x
  | x :: y :: xs => x ++ ", " ++ joinComma (y :: xs)
def memGenerateTags (title description category : String) :
    List String × List String :=
  let categoryKeywords := (KEYWORDS_BY_CATEGORY_MEM.lookup (lowerStr category)).getD []
  let words := jsSplitSpace (lowerStr title) ++ jsSplitSpace (lowerStr description)
  let tags := (dedupFirst (
      categoryKeywords.filter (fun k => words.any (fun w => jsIncludes w (lowerStr k))) ++
      GENERAL_KEYWORDS.filter (fun k => words.any (fun w => jsIncludes w (lowerStr k))))).take 13
  let seoTips := [
    "Make sure your title includes your primary keywords",
    "Use all 13 available tags for maximum visibility",
    "Include material types and occasions in your tags",
    "Consider adding these popular tags: " ++ joinComma (tags.take 3)]
  (tags, seoTips)

/-! ## Derived notions used by the theorems -/

def totalSize (l : List (String × MCEntry)) : Int :=
  (l.map (fun p => (p.2.size : Int))).sum

def WFmc (st : MCState) : Prop :=
  (st.cache.map Prod.fst).Nodup ∧
  st.currentSize = totalSize st.cache ∧
  st.currentSize ≤ (st.maxSize : Int)

def emojiChoices (tag category : String) : List String :=
  match EMOJI_MAPPINGS.find? (fun p => jsIncludes (lowerStr tag) (lowerStr p.1)) with
  | some p => p.2
  | none => [((EMOJI_MAPPINGS.lookup category).getD ["✨"]).getD 0 "✨"]

/-! ## Theorems -/

theorem b64Val_b64Char : ∀ n, n < 64 → b64Val (b64Char n) = n := by decide

theorem b64Char_ne_pad : ∀ n, n < 64 → b64Char n ≠ '=' := by decide

theorem b64Decode_pad2 (c1 c2 : Char) :
    b64DecodeBytes [c1, c2, '=', '='] = [b64Val c1 * 4 + b64Val c2 / 16] := by
  simp [b64DecodeBytes]

theorem b64Decode_pad1 (c1 c2 c3 : Char) (h : c3 ≠ '=') :
    b64DecodeBytes [c1, c2, c3, '='] =
      [b64Val c1 * 4 + b64Val c2 / 16, b64Val c2 % 16 * 16 + b64Val c3 / 4] := by
  simp [b64DecodeBytes, h]

theorem b64Decode_full (c1 c2 c3 c4 : Char) (rest : List Char)
    (h3 : c3 ≠ '=') (h4 : c4 ≠ '=') :
    b64DecodeBytes (c1 :: c2 :: c3 :: c4 :: rest) =
      (b64Val c1 * 4 + b64Val c2 / 16) ::
      (b64Val c2 % 16 * 16 + b64Val c3 / 4) ::
      (b64Val c3 % 4 * 64 + b64Val c4) :: b64DecodeBytes rest := by
  simp [b64DecodeBytes, h3, h4]

theorem b64_roundtrip :
    ∀ l : List Nat, (∀ b ∈ l, b < 256) →
      b64DecodeBytes (b64EncodeBytes l) = l
  | [], _ => rfl
  | [b1], h => by
    have hb1 : b1 < 256 := h b1 (by simp)
    show b64DecodeBytes [b64Char (b1 / 4), b64Char (b1 % 4 * 16), '=', '='] = [b1]
    rw [b64Decode_pad2, b64Val_b64Char _ (by omega), b64Val_b64Char _ (by omega)]
    simp only [List.cons.injEq, and_true]
    omega
  | [b1, b2], h => by
    have hb1 : b1 < 256 := h b1 (by simp)
    have hb2 : b2 < 256 := h b2 (by simp)
    show b64DecodeBytes [b64Char (b1 / 4), b64Char (b1 % 4 * 16 + b2 / 16),
        b64Char (b2 % 16 * 4), '='] = [b1, b2]
    rw [b64Decode_pad1 _ _ _ (b64Char_ne_pad _ (by omega)),
        b64Val_b64Char _ (by omega), b64Val_b64Char _ (by omega),
        b64Val_b64Char _ (by omega)]
    simp only [List.cons.injEq, and_true]
    omega
  | b1 :: b2 :: b3 :: rest, h => by
    have hb1 : b1 < 256 := h b1 (by simp)
    have hb2 : b2 < 256 := h b2 (by simp)
    have hb3 : b3 < 256 := h b3 (by simp)
    have hrest : ∀ b ∈ rest, b < 256 := fun b hb => h b (by simp [hb])
    show b64DecodeBytes (b64Char (b1 / 4) :: b64Char (b1 % 4 * 16 + b2 / 16) ::
        b64Char (b2 % 16 * 4 + b3 / 64) :: b64Char (b3 % 64) ::
        b64EncodeBytes rest) = b1 :: b2 :: b3 :: rest
    rw [b64Decode_full _ _ _ _ _ (b64Char_ne_pad _ (by omega)) (b64Char_ne_pad _ (by omega)),
        b64Val_b64Char _ (by omega), b64Val_b64Char _ (by omega),
        b64Val_b64Char _ (by omega), b64Val_b64Char _ (by omega),
        b64_roundtrip rest hrest]
    simp only [List.cons.injEq, and_true]
    omega

theorem b64EncodeBytes_eq_nil_iff (l : List Nat) :
    b64EncodeBytes l = [] ↔ l = [] := by
  constructor
  · intro hl
    match l with
    | [] => rfl
    | [b1] => simp [b64EncodeBytes] at hl
    | [b1, b2] => simp [b64EncodeBytes] at hl
    | b1 :: b2 :: b3 :: rest => simp [b64EncodeBytes] at hl
  · intro hl; subst hl; rfl

theorem b64EncodeBytes_inj {l1 l2 : List Nat}
    (h1 : ∀ b ∈ l1, b < 256) (h2 : ∀ b ∈ l2, b < 256)
    (h : b64EncodeBytes l1 = b64EncodeBytes l2) : l1 = l2 := by
  have := congrArg b64DecodeBytes h
  rwa [b64_roundtrip l1 h1, b64_roundtrip l2 h2] at this

theorem char_toNat_lt (c : Char) : c.toNat < 1114112 := by
  rcases c.valid with h | ⟨h1, h2⟩
  · have : c.val.toNat < 55296 := h
    simp only [Char.toNat]; omega
  · have : c.val.toNat < 1114112 := h2
    simp only [Char.toNat]; omega

theorem utf8Char_lt256 {c : Nat} (hc : c < 1114112) :
    ∀ b ∈ utf8Char c, b < 256 := by
  intro b hb
  unfold utf8Char at hb
  split_ifs at hb <;> simp only [List.mem_cons, List.not_mem_nil, or_false] at hb <;> omega

theorem utf8Char_ne_nil (c : Nat) : utf8Char c ≠ [] := by
  unfold utf8Char
  split_ifs <;> simp

theorem utf8Char_append_inj {c1 c2 : Nat} {r1 r2 : List Nat}
    (hv1 : c1 < 1114112) (hv2 : c2 < 1114112)
    (h : utf8Char c1 ++ r1 = utf8Char c2 ++ r2) : c1 = c2 ∧ r1 = r2 := by
  unfold utf8Char at h
  split_ifs at h <;>
    simp only [List.cons_append, List.nil_append, List.cons.injEq] at h <;>
    [skip; skip; skip; skip; skip; skip; skip; skip; skip; skip; skip; skip;
     skip; skip; skip; skip] <;>
  · obtain ⟨e1, h⟩ := h
    first
    | exact absurd e1 (by omega)
    | (obtain ⟨e2, h⟩ := h
       first
       | exact absurd e1 (by omega)
       | (obtain ⟨e3, h⟩ := h
          first
          | exact absurd e1 (by omega)
          | (obtain ⟨e4, h⟩ := h
             exact ⟨by omega, h⟩)
          | exact ⟨by omega, h⟩)
       | exact ⟨by omega, h⟩)
    | exact ⟨by omega, h⟩

theorem utf8Encode_data_inj :
    ∀ s1 s2 : List Char,
      s1.flatMap (fun c => utf8Char c.toNat) = s2.flatMap (fun c => utf8Char c.toNat) →
      s1 = s2
  | [], [], _ => rfl
  | [], c :: s, h => by
    rw [List.flatMap_nil, List.flatMap_cons] at h
    exact absurd (List.append_eq_nil.mp h.symm).1 (utf8Char_ne_nil c.toNat)
  | c :: s, [], h => by
    rw [List.flatMap_nil, List.flatMap_cons] at h
    exact absurd (List.append_eq_nil.mp h).1 (utf8Char_ne_nil c.toNat)
  | c1 :: s1, c2 :: s2, h => by
    rw [List.flatMap_cons, List.flatMap_cons] at h
    obtain ⟨hc, hs⟩ := utf8Char_append_inj (char_toNat_lt c1) (char_toNat_lt c2) h
    have hceq : c1 = c2 := Char.ext (UInt32.ext hc)
    have hseq : s1 = s2 := utf8Encode_data_inj s1 s2 hs
    rw [hceq, hseq]

theorem utf8Encode_inj {s1 s2 : String} (h : utf8Encode s1 = utf8Encode s2) :
    s1 = s2 := by
  cases s1; cases s2
  exact congrArg String.mk (utf8Encode_data_inj _ _ h)

theorem utf8Encode_lt256 (s : String) : ∀ b ∈ utf8Encode s, b < 256 := by
  intro b hb
  rw [utf8Encode, List.mem_flatMap] at hb
  obtain ⟨c, _, hc⟩ := hb
  exact utf8Char_lt256 (char_toNat_lt c) b hc

theorem leadsWith_iff : ∀ n h : List Char, leadsWith n h = true ↔ n <+: h
  | [], h => by simp [leadsWith]
  | a :: as, [] => by simp [leadsWith]
  | a :: as, b :: bs => by
    simp only [leadsWith, Bool.and_eq_true, beq_iff_eq, List.cons_prefix_cons]
    exact and_congr Iff.rfl (leadsWith_iff as bs)

theorem listContains_iff : ∀ h n : List Char, listContains h n = true ↔ n <:+: h
  | [], n => by
    simp only [listContains, leadsWith_iff, List.prefix_nil, List.infix_nil]
  | c :: t, n => by
    simp only [listContains, Bool.or_eq_true, leadsWith_iff, listContains_iff t n,
      List.infix_cons_iff]

theorem generateTagKey_eq_iff (t d c t' d' c' : String) :
    generateTagKey t d c = generateTagKey t' d' c' ↔
      t ++ ":" ++ d ++ ":" ++ c = t' ++ ":" ++ d' ++ ":" ++ c' := by
  constructor
  · intro h
    have hdata := congrArg String.data h
    simp only [generateTagKey, String.data_append] at hdata
    have henc := List.append_cancel_left hdata
    have hutf := b64EncodeBytes_inj (utf8Encode_lt256 _) (utf8Encode_lt256 _) henc
    exact utf8Encode_inj hutf
  · intro h
    simp only [generateTagKey, h]

theorem lookup_filter_ne_self {α : Type} (l : List (String × α)) (k : String) :
    (l.filter (fun p => p.1 != k)).lookup k = none := by
  induction l with
  | nil => rfl
  | cons a l ih =>
    by_cases h : a.1 = k
    · simpa [List.filter, h] using ih
    · have hne : (a.1 != k) = true := by simpa [bne_iff_ne] using h
      have hke : (k == a.1) = false := by simpa [beq_eq_false_iff_ne] using Ne.symm h
      simpa [List.filter, hne, List.lookup, hke] using ih

theorem mem_mapSet {α : Type} {m : List (String × α)} {k : String} {v : α}
    {p : String × α} (h : p ∈ mapSet m k v) : p ∈ m ∨ p = (k, v) := by
  unfold mapSet at h
  split at h
  · rw [List.mem_map] at h
    obtain ⟨q, hq, hpq⟩ := h
    by_cases hqk : q.1 = k
    · right
      rw [if_pos (by simpa using hqk)] at hpq
      exact hpq.symm
    · left
      rw [if_neg (by simpa using hqk)] at hpq
      exact hpq ▸ hq
  · rcases List.mem_append.mp h with h | h
    · exact Or.inl h
    · right; simpa using h

theorem mapSet_map_fst {α : Type} (m : List (String × α)) (k : String) (v : α) :
    (mapSet m k v).map Prod.fst =
      if m.any (fun p => p.1 == k) then m.map Prod.fst
      else m.map Prod.fst ++ [k] := by
  unfold mapSet
  split
  · rw [List.map_map]
    refine List.map_congr_left (fun q _ => ?_)
    by_cases hqk : q.1 = k <;> simp [Function.comp, hqk]
  · simp

theorem lookup_map_replace {α : Type} (m : List (String × α)) (k : String) (v : α) :
    (m.map (fun p => if p.1 == k then (k, v) else p)).lookup k =
      if m.any (fun p => p.1 == k) then some v else none := by
  induction m with
  | nil => rfl
  | cons a l ih =>
    by_cases hak : a.1 = k
    · have hb : (a.1 == k) = true := beq_iff_eq.mpr hak
      rw [List.map_cons, if_pos hb]
      simp [List.lookup, List.any_cons, hb]
    · have h1 : (a.1 == k) = false := beq_eq_false_iff_ne.mpr hak
      have h2 : (k == a.1) = false := beq_eq_false_iff_ne.mpr (Ne.symm hak)
      rw [List.map_cons, if_neg (by simp [h1])]
      simp only [List.any_cons, h1, Bool.false_or, List.lookup, h2]
      exact ih

theorem lookup_mapSet_self {α : Type} (m : List (String × α)) (k : String) (v : α) :
    (mapSet m k v).lookup k = some v := by
  unfold mapSet
  split
  · rename_i hany
    rw [lookup_map_replace, if_pos hany]
  · rename_i hany
    simp only [Bool.not_eq_true, List.any_eq_false] at hany
    induction m with
    | nil => simp [List.lookup]
    | cons a l ih =>
      have hak : ¬(a.1 = k) := by simpa using hany a (by simp)
      have h2 : (k == a.1) = false := beq_eq_false_iff_ne.mpr (Ne.symm hak)
      simp only [List.cons_append, List.lookup, h2]
      exact ih (fun p hp => hany p (by simp [hp]))

theorem mapSet_nodup {α : Type} {m : List (String × α)} {k : String} {v : α}
    (h : (m.map Prod.fst).Nodup) : ((mapSet m k v).map Prod.fst).Nodup := by
  unfold mapSet
  split
  · rw [List.map_map]
    rw [show (Prod.fst ∘ fun p : String × α => if p.1 == k then (k, v) else p) =
        fun p : String × α => p.1 from funext fun q => by
          by_cases hqk : q.1 = k <;> simp [hqk]]
    simpa using h
  · rename_i hany
    simp only [Bool.not_eq_true, List.any_eq_false] at hany
    rw [List.map_append, List.nodup_append]
    refine ⟨h, by simp, ?_⟩
    intro x hx hxk
    simp only [List.map_cons, List.map_nil, List.mem_singleton] at hxk
    subst hxk
    rw [List.mem_map] at hx
    obtain ⟨q, hq, hq1⟩ := hx
    exact absurd (beq_iff_eq.mpr hq1) (by simpa using hany q hq)

theorem fst_eq_of_mem_nodup {α : Type} {l : List (String × α)}
    (hnd : (l.map Prod.fst).Nodup) {p q : String × α}
    (hp : p ∈ l) (hq : q ∈ l) (hfst : p.1 = q.1) : p = q := by
  induction l with
  | nil => simp at hp
  | cons a l ih =>
    rw [List.map_cons, List.nodup_cons] at hnd
    rcases List.mem_cons.mp hp with hpa | hpl <;>
      rcases List.mem_cons.mp hq with hqa | hql
    · rw [hpa, hqa]
    · exact absurd (List.mem_map.mpr ⟨q, hql, (hfst ▸ hpa ▸ rfl : q.1 = a.1)⟩) hnd.1
    · exact absurd (List.mem_map.mpr ⟨p, hpl, (hqa ▸ hfst : p.1 = a.1)⟩) hnd.1
    · exact ih hnd.2 hpl hql

theorem lookup_some_mem {α : Type} {l : List (String × α)} {k : String} {v : α}
    (h : l.lookup k = some v) : (k, v) ∈ l := by
  induction l with
  | nil => simp [List.lookup] at h
  | cons a l ih =>
    by_cases hak : k = a.1
    · have hb : (k == a.1) = true := beq_iff_eq.mpr hak
      simp only [List.lookup, hb] at h
      rw [Option.some.injEq] at h
      have hpair : (k, v) = a := by rw [hak, ← h]
      rw [hpair]
      exact List.mem_cons_self a l
    · have hb : (k == a.1) = false := beq_eq_false_iff_ne.mpr hak
      simp only [List.lookup, hb] at h
      exact List.mem_cons_of_mem _ (ih h)

theorem lookup_none_of_forall_ne {α : Type} {l : List (String × α)} {k : String}
    (h : ∀ p ∈ l, p.1 ≠ k) : l.lookup k = none := by
  induction l with
  | nil => rfl
  | cons a l ih =>
    have hb : (k == a.1) = false :=
      beq_eq_false_iff_ne.mpr (Ne.symm (h a (by simp)))
    simp only [List.lookup, hb]
    exact ih (fun p hp => h p (by simp [hp]))

theorem any_eq_true_of_lookup_some {α : Type} {l : List (String × α)} {k : String}
    {v : α} (h : l.lookup k = some v) : l.any (fun p => p.1 == k) = true := by
  rw [List.any_eq_true]
  exact ⟨(k, v), lookup_some_mem h, by simp⟩

theorem any_eq_false_of_lookup_none {α : Type} {l : List (String × α)} {k : String}
    (h : l.lookup k = none) : l.any (fun p => p.1 == k) = false := by
  induction l with
  | nil => rfl
  | cons a l ih =>
    by_cases hak : k = a.1
    · simp [List.lookup, beq_iff_eq.mpr hak] at h
    · have hb : (k == a.1) = false := beq_eq_false_iff_ne.mpr hak
      simp only [List.lookup, hb] at h
      simp [List.any_cons, ih h, beq_eq_false_iff_ne.mpr (Ne.symm hak)]

theorem totalSize_cons (p : String × MCEntry) (l : List (String × MCEntry)) :
    totalSize (p :: l) = (p.2.size : Int) + totalSize l := by
  simp [totalSize]

theorem totalSize_perm {l1 l2 : List (String × MCEntry)}
    (h : List.Perm l1 l2) : totalSize l1 = totalSize l2 :=
  (h.map _).sum_eq

theorem perm_cons_filter_of_mem {α : Type} {l : List (String × α)} {k : String}
    {e : α} (hnd : (l.map Prod.fst).Nodup) (hmem : (k, e) ∈ l) :
    List.Perm l ((k, e) :: l.filter (fun p => p.1 != k)) := by
  induction l with
  | nil => simp at hmem
  | cons a l ih =>
    rw [List.map_cons, List.nodup_cons] at hnd
    rcases List.mem_cons.mp hmem with hak | hmem2
    · have hkeys : ∀ p ∈ l, p.1 ≠ k := by
        intro p hp hpk
        exact hnd.1 (List.mem_map.mpr ⟨p, hp, by rw [hpk, ← hak]⟩)
      have hfk : (a.1 != k) = false := by simp [← hak]
      rw [List.filter_cons, hfk]
      rw [List.filter_eq_self.mpr (fun p hp => by simpa using hkeys p hp)]
      rw [← hak]
      exact List.Perm.refl _
    · have hank : a.1 ≠ k := by
        intro hk
        exact hnd.1 (List.mem_map.mpr ⟨(k, e), hmem2, by rw [hk]⟩)
      have hfk : (a.1 != k) = true := by simpa using hank
      rw [List.filter_cons, hfk]
      exact ((ih hnd.2 hmem2).cons a).trans (List.Perm.swap _ _ _)

theorem filter_map_fst_nodup {α : Type} {l : List (String × α)}
    (h : (l.map Prod.fst).Nodup) (f : String × α → Bool) :
    ((l.filter f).map Prod.fst).Nodup :=
  (((List.filter_sublist l : (l.filter f).Sublist l)).map Prod.fst).nodup h

theorem totalSize_filter_of_mem {l : List (String × MCEntry)} {k : String}
    {e : MCEntry} (hnd : (l.map Prod.fst).Nodup) (hmem : (k, e) ∈ l) :
    totalSize (l.filter (fun p => p.1 != k)) = totalSize l - (e.size : Int) := by
  have h1 := totalSize_perm (perm_cons_filter_of_mem hnd hmem)
  rw [totalSize_cons] at h1
  have h2 : totalSize l =
      (e.size : Int) + totalSize (l.filter (fun p => p.1 != k)) := by
    simpa using h1
  omega

theorem evictLoop_spec (entries : List (String × MCEntry)) :
    ∀ (st : MCState) (size : Nat),
      List.Perm entries st.cache →
      (st.cache.map Prod.fst).Nodup →
      st.currentSize = totalSize st.cache →
      List.Pairwise expiryLe entries →
      (evictLoop entries st size).maxSize = st.maxSize ∧
      ((evictLoop entries st size).cache.map Prod.fst).Nodup ∧
      (evictLoop entries st size).currentSize =
        totalSize (evictLoop entries st size).cache ∧
      ((evictLoop entries st size).currentSize + (size : Int) ≤ (st.maxSize : Int) ∨
        (evictLoop entries st size).cache = []) ∧
      (∀ q ∈ (evictLoop entries st size).cache, q ∈ st.cache) ∧
      (∀ p ∈ st.cache, p ∉ (evictLoop entries st size).cache →
        ∀ q ∈ (evictLoop entries st size).cache, p.2.expiry ≤ q.2.expiry) := by
  induction entries with
  | nil =>
    intro st size hperm hnd hsz _
    have hcache : st.cache = [] := (hperm.symm).eq_nil
    have hstep : evictLoop [] st size = st := rfl
    rw [hstep]
    refine ⟨rfl, hnd, hsz, Or.inr hcache, fun q hq => hq, ?_⟩
    intro p hp hnp q hq
    rw [hcache] at hq
    simp at hq
  | cons head rest ih =>
    intro st size hperm hnd hsz hpw
    obtain ⟨k, e⟩ := head
    by_cases hc : st.currentSize + (size : Int) > (st.maxSize : Int)
    · have hmem : (k, e) ∈ st.cache := hperm.subset (List.mem_cons_self _ _)
      have hpermfil : List.Perm st.cache ((k, e) :: st.cache.filter (fun p => p.1 != k)) :=
        perm_cons_filter_of_mem hnd hmem
      have hpermN : List.Perm rest (st.cache.filter (fun p => p.1 != k)) :=
        (hperm.trans hpermfil).cons_inv
      have hstep : evictLoop ((k, e) :: rest) st size =
          evictLoop rest
            { st with cache := st.cache.filter (fun p => p.1 != k),
                      currentSize := st.currentSize - (e.size : Int) } size := by
        simp only [evictLoop]
        rw [if_pos hc]
      rw [hstep]
      set stN : MCState :=
        { st with cache := st.cache.filter (fun p => p.1 != k),
                  currentSize := st.currentSize - (e.size : Int) } with hstN
      have hndN : (stN.cache.map Prod.fst).Nodup := filter_map_fst_nodup hnd _
      have hszN : stN.currentSize = totalSize stN.cache := by
        show st.currentSize - (e.size : Int) =
          totalSize (st.cache.filter (fun p => p.1 != k))
        rw [totalSize_filter_of_mem hnd hmem, hsz]
      have hpwN : List.Pairwise expiryLe rest := (List.pairwise_cons.mp hpw).2
      obtain ⟨m1, m2, m3, m4, m5, m6⟩ := ih stN size hpermN hndN hszN hpwN
      refine ⟨m1, m2, m3, ?_, ?_, ?_⟩
      · rcases m4 with hle | hemp
        · exact Or.inl hle
        · exact Or.inr hemp
      · intro q hq
        exact (List.mem_filter.mp (m5 q hq)).1
      · intro p hp hnp q hq
        by_cases hpf : p ∈ stN.cache
        · exact m6 p hpf hnp q hq
        · have hp1k : p.1 = k := by
            by_contra hne
            exact hpf (List.mem_filter.mpr ⟨hp, by simpa using hne⟩)
          have hpe : p = (k, e) := fst_eq_of_mem_nodup hnd hp hmem hp1k
          have hqrest : q ∈ rest := hpermN.mem_iff.mpr (m5 q hq)
          have := (List.pairwise_cons.mp hpw).1 q hqrest
          rw [hpe]
          exact this
    · have hstep : evictLoop ((k, e) :: rest) st size = st := by
        simp only [evictLoop]
        rw [if_neg hc]
      rw [hstep]
      refine ⟨rfl, hnd, hsz, Or.inl (by omega), fun q hq => hq, ?_⟩
      intro p hp hnp _ _
      exact absurd hp hnp

theorem makeRoom_spec {st : MCState} {size : Nat} {st' : MCState}
    (hnd : (st.cache.map Prod.fst).Nodup)
    (hsz : st.currentSize = totalSize st.cache)
    (h : makeRoom st size = .ok st') :
    st'.maxSize = st.maxSize ∧
    (st'.cache.map Prod.fst).Nodup ∧
    st'.currentSize = totalSize st'.cache ∧
    (st'.currentSize + (size : Int) ≤ (st.maxSize : Int) ∨ st'.cache = []) ∧
    size ≤ st.maxSize ∧
    (∀ q ∈ st'.cache, q ∈ st.cache) ∧
    (∀ p ∈ st.cache, p ∉ st'.cache → ∀ q ∈ st'.cache, p.2.expiry ≤ q.2.expiry) := by
  unfold makeRoom at h
  by_cases hbig : size > st.maxSize
  · rw [if_pos hbig] at h
    exact absurd h (by simp)
  · rw [if_neg hbig] at h
    rw [Except.ok.injEq] at h
    subst h
    have hperm : List.Perm (List.insertionSort expiryLe st.cache) st.cache :=
      List.perm_insertionSort _ _
    have hpw : List.Pairwise expiryLe (List.insertionSort expiryLe st.cache) :=
      List.sorted_insertionSort _ _
    obtain ⟨h1, h2, h3, h4, h5, h6⟩ :=
      evictLoop_spec _ st size hperm hnd hsz hpw
    exact ⟨h1, h2, h3, h4, by omega, h5, h6⟩

theorem totalSize_mapSet_replace {m : List (String × MCEntry)} {k : String}
    {old : MCEntry} (e : MCEntry) (hnd : (m.map Prod.fst).Nodup)
    (hold : m.lookup k = some old) :
    totalSize (mapSet m k e) = totalSize m - (old.size : Int) + (e.size : Int) := by
  have hmem : (k, old) ∈ m := lookup_some_mem hold
  have hany : m.any (fun p => p.1 == k) = true := any_eq_true_of_lookup_some hold
  have hperm1 : List.Perm m ((k, old) :: m.filter (fun p => p.1 != k)) :=
    perm_cons_filter_of_mem hnd hmem
  have hkeys : ∀ p ∈ m.filter (fun p => p.1 != k), p.1 ≠ k := by
    intro p hp
    simpa using (List.mem_filter.mp hp).2
  have hmapfil :
      (m.filter (fun p => p.1 != k)).map
          (fun p => if p.1 == k then (k, e) else p) =
        m.filter (fun p => p.1 != k) := by
    rw [List.map_congr_left (fun p hp => by
      rw [if_neg (by simpa using hkeys p hp)])]
    exact List.map_id _
  have hperm2 : List.Perm (mapSet m k e)
      ((k, e) :: m.filter (fun p => p.1 != k)) := by
    unfold mapSet
    rw [if_pos hany]
    have := hperm1.map (fun p => if p.1 == k then (k, e) else p)
    simp only [List.map_cons, if_pos (beq_self_eq_true k), hmapfil] at this
    simpa using this
  rw [totalSize_perm hperm2, totalSize_cons, totalSize_filter_of_mem hnd hmem]
  have hred : (((k, e).2.size : Nat) : Int) = (e.size : Int) := rfl
  rw [hred]
  omega

theorem totalSize_mapSet_new {m : List (String × MCEntry)} {k : String}
    (e : MCEntry) (hnone : m.lookup k = none) :
    totalSize (mapSet m k e) = totalSize m + (e.size : Int) := by
  unfold mapSet
  rw [if_neg (by simp [any_eq_false_of_lookup_none hnone])]
  simp [totalSize, List.map_append, List.sum_append]

theorem set_WF {st : MCState} {now : Nat} {key data : String} {expiry : Nat}
    {st' : MCState} (hwf : WFmc st)
    (h : MemoryCache.set st now key data expiry = .ok st') :
    WFmc st' ∧ st'.maxSize = st.maxSize := by
  obtain ⟨hnd, hsz, hbound⟩ := hwf
  unfold MemoryCache.set at h
  cases hmr : makeRoom st (calculateSize data) with
  | error msg =>
    simp only [hmr, Except.ok.injEq] at h
    subst h
    exact ⟨⟨hnd, hsz, hbound⟩, rfl⟩
  | ok st1 =>
    simp only [hmr] at h
    obtain ⟨m1, m2, m3, m4, m5, m6, m7⟩ := makeRoom_spec hnd hsz hmr
    cases hlk : st1.cache.lookup key with
    | some old =>
      simp only [hlk, Except.ok.injEq] at h
      subst h
      have hnone : st1.cache ≠ [] := by
        intro hc
        rw [hc] at hlk
        simp [List.lookup] at hlk
      have hle : st1.currentSize + (calculateSize data : Int) ≤ (st.maxSize : Int) := by
        rcases m4 with h4 | h4
        · exact h4
        · exact absurd h4 hnone
      refine ⟨⟨mapSet_nodup m2, ?_, ?_⟩, m1⟩
      · show st1.currentSize - (old.size : Int) + (calculateSize data : Int) =
          totalSize (mapSet st1.cache key ⟨data, now + expiry * 1000, calculateSize data⟩)
        rw [totalSize_mapSet_replace _ m2 hlk, m3]
      · show st1.currentSize - (old.size : Int) + (calculateSize data : Int) ≤
          ((st1.maxSize : Nat) : Int)
        rw [m1]
        omega
    | none =>
      simp only [hlk, Except.ok.injEq] at h
      subst h
      refine ⟨⟨mapSet_nodup m2, ?_, ?_⟩, m1⟩
      · show st1.currentSize + (calculateSize data : Int) =
          totalSize (mapSet st1.cache key ⟨data, now + expiry * 1000, calculateSize data⟩)
        rw [totalSize_mapSet_new _ hlk, m3]
      · show st1.currentSize + (calculateSize data : Int) ≤ ((st1.maxSize : Nat) : Int)
        rw [m1]
        rcases m4 with h4 | h4
        · exact h4
        · rw [h4] at m3
          simp only [totalSize, List.map_nil, List.sum_nil] at m3
          omega

theorem get_WF {st : MCState} {now : Nat} {key : String} (hwf : WFmc st) :
    WFmc (MemoryCache.get st now key).2 ∧
    (MemoryCache.get st now key).2.maxSize = st.maxSize := by
  obtain ⟨hnd, hsz, hbound⟩ := hwf
  cases hlk : st.cache.lookup key with
  | none =>
    have hstep : MemoryCache.get st now key = (none, st) := by
      simp [MemoryCache.get, hlk]
    rw [hstep]
    exact ⟨⟨hnd, hsz, hbound⟩, rfl⟩
  | some e =>
    by_cases hex : e.expiry < now
    · have hstep : MemoryCache.get st now key =
          (none, { st with cache := st.cache.filter (fun p => p.1 != key),
                           currentSize := st.currentSize - (e.size : Int) }) := by
        simp [MemoryCache.get, hlk, hex]
      rw [hstep]
      have hmem : (key, e) ∈ st.cache := lookup_some_mem hlk
      have hfil := totalSize_filter_of_mem hnd hmem
      refine ⟨⟨filter_map_fst_nodup hnd _, ?_, ?_⟩, rfl⟩
      · show st.currentSize - (e.size : Int) =
          totalSize (st.cache.filter (fun p => p.1 != key))
        rw [hfil, hsz]
      · show st.currentSize - (e.size : Int) ≤ ((st.maxSize : Nat) : Int)
        omega
    · have hstep : MemoryCache.get st now key = (some e.data, st) := by
        simp [MemoryCache.get, hlk, hex]
      rw [hstep]
      exact ⟨⟨hnd, hsz, hbound⟩, rfl⟩

theorem del_WF {st : MCState} {key : String} (hwf : WFmc st) :
    WFmc (MemoryCache.del st key) ∧
    (MemoryCache.del st key).maxSize = st.maxSize := by
  obtain ⟨hnd, hsz, hbound⟩ := hwf
  cases hlk : st.cache.lookup key with
  | none =>
    have hstep : MemoryCache.del st key = st := by
      simp [MemoryCache.del, hlk]
    rw [hstep]
    exact ⟨⟨hnd, hsz, hbound⟩, rfl⟩
  | some e =>
    have hstep : MemoryCache.del st key =
        { st with cache := st.cache.filter (fun p => p.1 != key),
                  currentSize := st.currentSize - (e.size : Int) } := by
      simp [MemoryCache.del, hlk]
    rw [hstep]
    have hmem : (key, e) ∈ st.cache := lookup_some_mem hlk
    have hfil := totalSize_filter_of_mem hnd hmem
    refine ⟨⟨filter_map_fst_nodup hnd _, ?_, ?_⟩, rfl⟩
    · show st.currentSize - (e.size : Int) =
        totalSize (st.cache.filter (fun p => p.1 != key))
      rw [hfil, hsz]
    · show st.currentSize - (e.size : Int) ≤ ((st.maxSize : Nat) : Int)
      omega

theorem applyOp_WF {st : MCState} (op : MCOp) (hwf : WFmc st) :
    WFmc (applyOp st op) ∧ (applyOp st op).maxSize = st.maxSize := by
  cases op with
  | opSet now k d e =>
    cases hs : MemoryCache.set st now k d e with
    | ok s =>
      have hstep : applyOp st (MCOp.opSet now k d e) = s := by
        simp [applyOp, hs]
      rw [hstep]
      exact set_WF hwf hs
    | error msg =>
      have hstep : applyOp st (MCOp.opSet now k d e) = st := by
        simp [applyOp, hs]
      rw [hstep]
      exact ⟨hwf, rfl⟩
  | opGet now k =>
    have hstep : applyOp st (MCOp.opGet now k) = (MemoryCache.get st now k).2 := by
      simp [applyOp]
    rw [hstep]
    exact get_WF hwf
  | opDel k =>
    have hstep : applyOp st (MCOp.opDel k) = MemoryCache.del st k := by
      simp [applyOp]
    rw [hstep]
    exact del_WF hwf

theorem runOps_WF (ops : List MCOp) :
    ∀ st : MCState, WFmc st →
      WFmc (runOps st ops) ∧ (runOps st ops).maxSize = st.maxSize := by
  induction ops with
  | nil => exact fun st hwf => ⟨hwf, rfl⟩
  | cons op ops ih =>
    intro st hwf
    obtain ⟨h1, h2⟩ := applyOp_WF op hwf
    obtain ⟨h3, h4⟩ := ih (applyOp st op) h1
    exact ⟨h3, h4.trans h2⟩

theorem initMC_WF (maxMB : Nat) : WFmc (initMC maxMB) := by
  refine ⟨List.nodup_nil, rfl, ?_⟩
  show (0 : Int) ≤ ((maxMB * 1024 * 1024 : Nat) : Int)
  positivity

/-! ## Claim theorems -/

/-- Claim C5, counterexample: for a store whose budget is 0 bytes, storing the
one-character string "v" (6 approximate bytes) is oversized, yet
`MemoryCache.set` returns successfully (the `try/catch` swallows the internal
"Item too large for cache" error), so no `EntryTooLarge` signal reaches
`set`'s caller; the state is unchanged. The claim says `set` signals
`EntryTooLarge` to its immediate caller, which is false of the code. -/
theorem c5_counterexample :
    MemoryCache.set (initMC 0) 0 "k" "v" 60 = .ok (initMC 0) ∧
    makeRoom (initMC 0) (calculateSize "v") = .error "Item too large for cache" ∧
    (∀ msg, MemoryCache.set (initMC 0) 0 "k" "v" 60 ≠ .error msg) := by
  refine ⟨rfl, rfl, ?_⟩
  intro msg h
  simp [MemoryCache.set, makeRoom, calculateSize, initMC] at h

/-- Claim C5, amended: when a single incoming entry is larger than the total
byte budget, the internal `makeRoom` does raise `EntryTooLarge`
("Item too large for cache"), no entry is stored and the state (contents and
tracked size) is unchanged — but `MemoryCache.set` catches the error itself
(logging it) and returns normally, so the signal never reaches `set`'s
caller. -/
theorem c5_amended (st : MCState) (now : Nat) (key data : String) (expiry : Nat)
    (h : calculateSize data > st.maxSize) :
    makeRoom st (calculateSize data) = .error "Item too large for cache" ∧
    MemoryCache.set st now key data expiry = .ok st := by
  constructor
  · unfold makeRoom
    rw [if_pos h]
  · unfold MemoryCache.set
    have hmr : makeRoom st (calculateSize data) = .error "Item too large for cache" := by
      unfold makeRoom
      rw [if_pos h]
    simp [hmr]

theorem c5_amended_witness :
    makeRoom (initMC 0) (calculateSize "v") = .error "Item too large for cache" ∧
    MemoryCache.set (initMC 0) 7 "k" "v" 60 = .ok (initMC 0) :=
  c5_amended (initMC 0) 7 "k" "v" 60 (by decide)

/-- Claim C6: starting from a fresh memory store, after every sequence of
set/get/del operations the tracked size never exceeds the configured byte
budget; and whenever `makeRoom` (called by `set`) evicts, every evicted entry
expires no later than every retained one — soonest-expiry-first eviction. -/
theorem c6_size_bound_and_eviction_order :
    (∀ (maxMB : Nat) (ops : List MCOp),
      (runOps (initMC maxMB) ops).currentSize ≤ (((initMC maxMB).maxSize : Nat) : Int)) ∧
    (∀ (st : MCState) (size : Nat) (st' : MCState), WFmc st →
      makeRoom st size = .ok st' →
      ∀ p ∈ st.cache, p ∉ st'.cache → ∀ q ∈ st'.cache, p.2.expiry ≤ q.2.expiry) := by
  constructor
  · intro maxMB ops
    obtain ⟨⟨_, _, hb⟩, hmax⟩ := runOps_WF ops (initMC maxMB) (initMC_WF maxMB)
    rw [hmax] at hb
    exact hb
  · intro st size st' hwf hmr
    exact (makeRoom_spec hwf.1 hwf.2.1 hmr).2.2.2.2.2.2

theorem c6_witness :
    (runOps (initMC 0) []).currentSize ≤ (((initMC 0).maxSize : Nat) : Int) ∧
    (("k1", (⟨"a", 5, 4⟩ : MCEntry)).2.expiry ≤
      ("k2", (⟨"b", 9, 4⟩ : MCEntry)).2.expiry) :=
  ⟨c6_size_bound_and_eviction_order.1 0 [],
   c6_size_bound_and_eviction_order.2
     ⟨[("k1", ⟨"a", 5, 4⟩), ("k2", ⟨"b", 9, 4⟩)], 10, 8⟩ 6
     ⟨[("k2", ⟨"b", 9, 4⟩)], 10, 4⟩
     (by refine ⟨by decide, by decide, by decide⟩)
     rfl
     ("k1", ⟨"a", 5, 4⟩) (by simp)
     (by decide)
     ("k2", ⟨"b", 9, 4⟩) (by simp)⟩

/-- Claim C8: reading a key whose entry has expired returns a miss and removes
the entry (decrementing the tracked size in the size-tracking store), and a
second read of the same key from the resulting state returns exactly the same
miss and the same state — the expired entry behaves as if it had never been
set. This holds for both the size-tracking `MemoryCache.get` and the
`FallbackCache` memory tier (`memFetch`), with no background sweep involved. -/
theorem c8_expiry_on_read :
    (∀ (st : MCState) (now : Nat) (key : String) (e : MCEntry),
      st.cache.lookup key = some e → e.expiry < now →
      MemoryCache.get st now key =
        (none, { st with cache := st.cache.filter (fun p => p.1 != key),
                         currentSize := st.currentSize - (e.size : Int) }) ∧
      MemoryCache.get
          { st with cache := st.cache.filter (fun p => p.1 != key),
                    currentSize := st.currentSize - (e.size : Int) } now key =
        (none, { st with cache := st.cache.filter (fun p => p.1 != key),
                         currentSize := st.currentSize - (e.size : Int) })) ∧
    (∀ (st : FCState) (now : Nat) (key : String) (e : FCEntry),
      st.memory.lookup key = some e → e.expiry < now →
      memFetch st now key =
        (none, { st with memory := st.memory.filter (fun p => p.1 != key) }) ∧
      memFetch { st with memory := st.memory.filter (fun p => p.1 != key) } now key =
        (none, { st with memory := st.memory.filter (fun p => p.1 != key) })) := by
  constructor
  · intro st now key e hlk hex
    constructor
    · simp [MemoryCache.get, hlk, hex]
    · simp [MemoryCache.get, lookup_filter_ne_self]
  · intro st now key e hlk hex
    constructor
    · simp [memFetch, hlk, hex]
    · simp [memFetch, lookup_filter_ne_self]

theorem c8_witness :
    MemoryCache.get ⟨[("k", ⟨"v", 1, 6⟩)], 104857600, 6⟩ 2 "k" =
      (none, ⟨[], 104857600, 0⟩) ∧
    memFetch ⟨[("k", ⟨"v", 1⟩)], false, true, none⟩ 2 "k" =
      (none, ⟨[], false, true, none⟩) := by
  have h1 := (c8_expiry_on_read.1 ⟨[("k", ⟨"v", 1, 6⟩)], 104857600, 6⟩ 2 "k"
    ⟨"v", 1, 6⟩ rfl (by decide)).1
  have h2 := (c8_expiry_on_read.2 ⟨[("k", ⟨"v", 1⟩)], false, true, none⟩ 2 "k"
    ⟨"v", 1⟩ rfl (by decide)).1
  constructor
  · rw [h1]
    decide
  · rw [h2]
    decide

/-- Claim C2, counterexample: with Redis configured and the availability ping
succeeding, an error in the subsequent Redis operation propagates out of
`CacheService.set`/`CacheService.get` — `FallbackCache.set`/`get` have no
`try/catch` around the operation itself, so an external-cache error after a
successful ping escapes CacheService's boundary, contrary to the claim. -/
theorem c2_counterexample :
    CacheService.set FCState.initRedis true false 0 "k" "v" 60 =
      .error "redis setex error" ∧
    CacheService.get FCState.initRedis true none 0 "k" =
      .error "redis get error" := ⟨rfl, rfl⟩

/-- Claim C2, amended: external-cache errors that occur during the
availability check (the ping) are absorbed: the call flips to the memory tier
and `CacheService.set`/`get` return normally; on the memory tier a miss is
returned as `none` (null) rather than an error; and `healthCheck` returns
true when only the memory tier is available. Only an error occurring after a
successful ping (in the Redis operation itself) escapes, per the
counterexample. -/
theorem c2_amended (st : FCState) (now expiry : Nat) (k v : String)
    (opOk : Bool) (opR : Option (Option String)) (pingOk : Bool) :
    (pingOk = false ∨ st.useMemoryCache = true →
      (CacheService.set st pingOk opOk now k v expiry).isOk = true ∧
      (CacheService.get st pingOk opR now k).isOk = true) ∧
    (st.useMemoryCache = true → st.memory.lookup (csKey k) = none →
      CacheService.get st pingOk opR now k = .ok (none, st)) ∧
    (st.useMemoryCache = true →
      ∀ (pS oS pG : Bool) (oG : Option (Option String)),
        (CacheService.healthCheck st pS oS pG oG now).1 = true) := by
  refine ⟨?_, ?_, ?_⟩
  · intro h
    by_cases hmem : st.useMemoryCache = true
    · constructor <;>
        simp [CacheService.set, CacheService.get, fallbackSet, fallbackGet, hmem,
          Except.isOk, Except.toBool]
    · have hpf : pingOk = false := by
        rcases h with h | h
        · exact h
        · exact absurd h hmem
      rw [Bool.not_eq_true] at hmem
      subst hpf
      cases hhr : st.hasRedis <;> constructor <;>
        simp [CacheService.set, CacheService.get, fallbackSet, fallbackGet,
          useRedis, hmem, hhr, Except.isOk, Except.toBool]
  · intro hmem hmiss
    have hmf : memFetch st now (csKey k) = (none, st) := by
      simp [memFetch, hmiss]
    simp [CacheService.get, fallbackGet, hmem, hmf]
  · intro hmem pS oS pG oG
    have hset : fallbackSet st pS oS now (csNamespace ++ "health:" ++ toString now)
        "test" 5 = .ok (memStore st now (csNamespace ++ "health:" ++ toString now)
          "test" 5) := by
      simp [fallbackSet, hmem]
    have hlk : (memStore st now (csNamespace ++ "health:" ++ toString now)
          "test" 5).memory.lookup (csNamespace ++ "health:" ++ toString now) =
        some ⟨"test", now + 5 * 1000⟩ := lookup_mapSet_self _ _ _
    have hmf : memFetch (memStore st now (csNamespace ++ "health:" ++ toString now)
          "test" 5) now (csNamespace ++ "health:" ++ toString now) =
        (some "test", memStore st now (csNamespace ++ "health:" ++ toString now)
          "test" 5) := by
      simp only [memFetch, hlk]
      rw [if_neg (by omega)]
    have hget : fallbackGet (memStore st now (csNamespace ++ "health:" ++ toString now)
          "test" 5) pG oG now (csNamespace ++ "health:" ++ toString now) =
        .ok (some "test", memStore st now (csNamespace ++ "health:" ++ toString now)
          "test" 5) := by
      have hm1 : (memStore st now (csNamespace ++ "health:" ++ toString now)
          "test" 5).useMemoryCache = true := hmem
      simp [fallbackGet, hm1, hmf]
    simp [CacheService.healthCheck, hset, hget]

theorem c2_amended_witness :
    (CacheService.set FCState.initNoRedis false true 0 "k" "v" 60).isOk = true ∧
    CacheService.get FCState.initNoRedis true (some none) 0 "k" =
      .ok (none, FCState.initNoRedis) ∧
    (CacheService.healthCheck FCState.initNoRedis true true true (some none) 0).1 = true :=
  ⟨((c2_amended FCState.initNoRedis 0 60 "k" "v" true (some none) false).1
      (Or.inl rfl)).1,
   (c2_amended FCState.initNoRedis 0 60 "k" "v" true (some none) true).2.1 rfl rfl,
   (c2_amended FCState.initNoRedis 0 60 "k" "v" true (some none) true).2.2 rfl
     true true true (some none)⟩

/-- Claim C3, counterexample: round-tripping the empty buffer fails.
`setBinary` stores the empty base64 string `""`, and `getBinary` evaluates
`data ? Buffer.from(data, "base64") : null` — the empty string is falsy, so
the read returns null instead of an empty buffer, although the entry is
present in the store. -/
theorem c3_counterexample :
    CacheService.setBinary FCState.initNoRedis true true 0 "k" [] 60 =
      .ok ⟨[("etsyboost:k", ⟨"", 60000⟩)], false, true, none⟩ ∧
    CacheService.getBinary ⟨[("etsyboost:k", ⟨"", 60000⟩)], false, true, none⟩
        true (some none) 0 "k" =
      .ok (none, ⟨[("etsyboost:k", ⟨"", 60000⟩)], false, true, none⟩) := ⟨rfl, rfl⟩

/-- Claim C3, amended: for every nonempty byte buffer B (bytes < 256),
`setBinary` followed by `getBinary` on the memory tier, before expiry,
returns a buffer byte-for-byte identical to B; the empty buffer is the sole
exception (per the counterexample), coming back as null. -/
theorem c3_amended (st : FCState) (now expiry : Nat) (k : String) (B : List Nat)
    (hmem : st.useMemoryCache = true) (hB : B ≠ []) (hbytes : ∀ b ∈ B, b < 256)
    (p1 p2 o1 : Bool) (opR : Option (Option String)) :
    CacheService.setBinary st p1 o1 now k B expiry =
      .ok (memStore st now (csKey k) (String.mk (b64EncodeBytes B)) expiry) ∧
    CacheService.getBinary
        (memStore st now (csKey k) (String.mk (b64EncodeBytes B)) expiry)
        p2 opR now k =
      .ok (some B, memStore st now (csKey k) (String.mk (b64EncodeBytes B)) expiry) := by
  constructor
  · simp [CacheService.setBinary, fallbackSetBinary, fallbackSet, hmem]
  · have hlk : (memStore st now (csKey k) (String.mk (b64EncodeBytes B))
          expiry).memory.lookup (csKey k) =
        some ⟨String.mk (b64EncodeBytes B), now + expiry * 1000⟩ :=
      lookup_mapSet_self _ _ _
    have hmf : memFetch (memStore st now (csKey k) (String.mk (b64EncodeBytes B))
          expiry) now (csKey k) =
        (some (String.mk (b64EncodeBytes B)),
          memStore st now (csKey k) (String.mk (b64EncodeBytes B)) expiry) := by
      simp only [memFetch, hlk]
      rw [if_neg (by omega)]
    have hm1 : (memStore st now (csKey k) (String.mk (b64EncodeBytes B))
        expiry).useMemoryCache = true := hmem
    have hget : fallbackGet (memStore st now (csKey k)
          (String.mk (b64EncodeBytes B)) expiry) p2 opR now (csKey k) =
        .ok (some (String.mk (b64EncodeBytes B)),
          memStore st now (csKey k) (String.mk (b64EncodeBytes B)) expiry) := by
      simp [fallbackGet, hm1, hmf]
    simp only [CacheService.getBinary, fallbackGetBinary, hget]
    have hne : String.mk (b64EncodeBytes B) ≠ "" := by
      intro hs
      exact hB ((b64EncodeBytes_eq_nil_iff B).mp (congrArg String.data hs))
    rw [if_neg hne]
    have hdec : b64DecodeBytes (String.mk (b64EncodeBytes B)).data = B := by
      show b64DecodeBytes (b64EncodeBytes B) = B
      exact b64_roundtrip B hbytes
    rw [hdec]

theorem c3_amended_witness :
    CacheService.setBinary FCState.initNoRedis true true 0 "k" [1, 2, 3] 60 =
      .ok (memStore FCState.initNoRedis 0 (csKey "k")
        (String.mk (b64EncodeBytes [1, 2, 3])) 60) ∧
    CacheService.getBinary (memStore FCState.initNoRedis 0 (csKey "k")
        (String.mk (b64EncodeBytes [1, 2, 3])) 60) true (some none) 0 "k" =
      .ok (some [1, 2, 3], memStore FCState.initNoRedis 0 (csKey "k")
        (String.mk (b64EncodeBytes [1, 2, 3])) 60) :=
  c3_amended FCState.initNoRedis 0 60 "k" [1, 2, 3] rfl (by decide) (by decide)
    true true true (some none)

/-- Claim C4, counterexample: the joining delimiter is ":", which may itself
occur in the inputs, so the delimiter is not unambiguous: the two distinct
argument triples ("a:b", "c", "d") and ("a", "b:c", "d") produce the same
key. -/
theorem c4_counterexample :
    generateTagKey "a:b" "c" "d" = generateTagKey "a" "b:c" "d" ∧
    ("a:b", "c", "d") ≠ (("a", "b:c", "d") : String × String × String) := by
  constructor
  · rfl
  · decide

/-- Claim C4, amended: `generateTagKey` is a pure function of the colon-joined
string `title:description:category` — two calls return the same key exactly
when the joined strings are equal (the encoding chain, UTF-8 then base64, is
injective). Hence identical arguments always give identical keys, and
changing one argument gives a different key unless the change leaves the
colon-join unchanged (possible because the inputs may contain ":"). -/
theorem c4_amended (t d c t' d' c' : String) :
    generateTagKey t d c = generateTagKey t' d' c' ↔
      t ++ ":" ++ d ++ ":" ++ c = t' ++ ":" ++ d' ++ ":" ++ c' :=
  generateTagKey_eq_iff t d c t' d' c'

/-- Claim C1, code-bug evidence: for title "gift for kids", description "toy",
category "Toys", the marketing rule table records score
min(10, 8 + 1 + 1 + 1) = 10 for the tag "gift for kids", but the compound
child/kid rule runs later and unconditionally overwrites that entry with 9.
The final result carries score 9 for "gift for kids" — the score of the rule
that happened to run last, not the maximum (10) over applicable rules, which
is what the claim (and the spec's merge-by-max contract) requires. -/
theorem c1_overwrite_evidence :
    (stageMarketing "gift for kids" "toy" "Toys").lookup "gift for kids" =
      some 10 ∧
    (∃ tag ∈ (generateTags "gift for kids" "toy" "Toys" (fun _ => 0)).1,
      tag.text = "gift for kids" ∧ tag.score = 9) ∧
    (∀ tag ∈ (generateTags "gift for kids" "toy" "Toys" (fun _ => 0)).1,
      tag.text = "gift for kids" → tag.score = 9) := by
  refine ⟨by decide, by decide, by decide⟩

theorem scoreFor_bounds (title : String) (bonus : Nat) (kw : String) (base : Nat) :
    1 ≤ scoreFor title bonus kw base ∧ scoreFor title bonus kw base ≤ 10 := by
  unfold scoreFor
  omega

theorem mem_foldl_catStep (cond : String → Bool) :
    ∀ (kws : List String) (acc : List (String × Nat)) (p : String × Nat),
      p ∈ kws.foldl (fun m kw => if cond kw then mapSet m kw 9 else m) acc →
      p ∈ acc ∨ ∃ kw ∈ kws, p = (kw, 9) := by
  intro kws
  induction kws with
  | nil => exact fun acc p h => Or.inl h
  | cons kw kws ih =>
    intro acc p h
    rw [List.foldl_cons] at h
    rcases ih _ p h with h1 | ⟨kw2, hkw2, hp⟩
    · by_cases hc : cond kw
      · rw [if_pos hc] at h1
        rcases mem_mapSet h1 with h2 | h2
        · exact Or.inl h2
        · exact Or.inr ⟨kw, by simp, h2⟩
      · rw [if_neg hc] at h1
        exact Or.inl h1
    · exact Or.inr ⟨kw2, by simp [hkw2], hp⟩

theorem mem_addScoredTags (content title : String) (bonus : Nat) :
    ∀ (kws : List (String × Nat)) (acc : List (String × Nat)) (p : String × Nat),
      p ∈ addScoredTags content title kws bonus acc →
      p ∈ acc ∨ ∃ q ∈ kws, p = (q.1, scoreFor title bonus q.1 q.2) := by
  intro kws
  induction kws with
  | nil => exact fun acc p h => Or.inl h
  | cons q kws ih =>
    intro acc p h
    unfold addScoredTags at h
    rw [List.foldl_cons] at h
    rcases ih _ p h with h1 | ⟨q2, hq2, hp⟩
    · by_cases hc : containsKeyword content q.1
      · rw [if_pos hc] at h1
        rcases mem_mapSet h1 with h2 | h2
        · exact Or.inl h2
        · exact Or.inr ⟨q, by simp, h2⟩
      · rw [if_neg hc] at h1
        exact Or.inl h1
    · exact Or.inr ⟨q2, by simp [hq2], hp⟩

theorem tagScoresList_bounds (t d c : String) :
    ∀ p ∈ tagScoresList t d c, 1 ≤ p.2 ∧ p.2 ≤ 10 := by
  have hcat : ∀ p ∈ stageCategory t d c, 1 ≤ p.2 ∧ p.2 ≤ 10 := by
    intro p hp
    unfold stageCategory at hp
    rcases mem_foldl_catStep _ _ _ p hp with h | ⟨kw, _, hpkw⟩
    · simp at h
    · rw [hpkw]; omega
  have hmkt : ∀ p ∈ stageMarketing t d c, 1 ≤ p.2 ∧ p.2 ≤ 10 := by
    intro p hp
    rcases mem_addScoredTags _ _ _ _ _ p hp with h | ⟨q, _, hpq⟩
    · exact hcat p h
    · rw [hpq]; exact scoreFor_bounds t 1 q.1 q.2
  have haud : ∀ p ∈ stageAudience t d c, 1 ≤ p.2 ∧ p.2 ≤ 10 := by
    intro p hp
    rcases mem_addScoredTags _ _ _ _ _ p hp with h | ⟨q, _, hpq⟩
    · exact hmkt p h
    · rw [hpq]; exact scoreFor_bounds t 1 q.1 q.2
  have hfea : ∀ p ∈ stageFeature t d c, 1 ≤ p.2 ∧ p.2 ≤ 10 := by
    intro p hp
    rcases mem_addScoredTags _ _ _ _ _ p hp with h | ⟨q, _, hpq⟩
    · exact haud p h
    · rw [hpq]; exact scoreFor_bounds t 0 q.1 q.2
  have hspe : ∀ p ∈ stageSpecialty t d c, 1 ≤ p.2 ∧ p.2 ≤ 10 := by
    intro p hp
    unfold stageSpecialty at hp
    rcases mem_addScoredTags _ _ _ _ _ p hp with h | ⟨q, _, hpq⟩
    · exact hfea p h
    · rw [hpq]
      exact scoreFor_bounds t _ q.1 q.2
  intro p hp
  simp only [tagScoresList] at hp
  split at hp
  · split at hp
    · rcases mem_mapSet hp with hp1 | hp1
      · rcases mem_mapSet hp1 with hp2 | hp2
        · rcases mem_mapSet hp2 with hp3 | hp3
          · rcases mem_mapSet hp3 with hp4 | hp4
            · rcases mem_mapSet hp4 with hp5 | hp5
              · rcases mem_mapSet hp5 with hp6 | hp6
                · exact hspe p hp6
                · rw [hp6]; omega
              · rw [hp5]; omega
            · rw [hp4]; omega
          · rw [hp3]; omega
        · rw [hp2]; omega
      · rw [hp1]; omega
    · rcases mem_mapSet hp with hp1 | hp1
      · rcases mem_mapSet hp1 with hp2 | hp2
        · rcases mem_mapSet hp2 with hp3 | hp3
          · exact hspe p hp3
          · rw [hp3]; omega
        · rw [hp2]; omega
      · rw [hp1]; omega
  · split at hp
    · rcases mem_mapSet hp with hp1 | hp1
      · rcases mem_mapSet hp1 with hp2 | hp2
        · rcases mem_mapSet hp2 with hp3 | hp3
          · exact hspe p hp3
          · rw [hp3]; omega
        · rw [hp2]; omega
      · rw [hp1]; omega
    · exact hspe p hp

theorem addScoredTags_nodup (content title : String) (bonus : Nat) :
    ∀ (kws : List (String × Nat)) (acc : List (String × Nat)),
      (acc.map Prod.fst).Nodup →
      ((addScoredTags content title kws bonus acc).map Prod.fst).Nodup := by
  intro kws
  induction kws with
  | nil => exact fun acc h => h
  | cons q kws ih =>
    intro acc h
    unfold addScoredTags
    rw [List.foldl_cons]
    apply ih
    by_cases hc : containsKeyword content q.1
    · rw [if_pos hc]
      exact mapSet_nodup h
    · rw [if_neg hc]
      exact h

theorem catFoldl_nodup (cond : String → Bool) :
    ∀ (kws : List String) (acc : List (String × Nat)),
      (acc.map Prod.fst).Nodup →
      ((kws.foldl (fun m kw => if cond kw then mapSet m kw 9 else m) acc).map
        Prod.fst).Nodup := by
  intro kws
  induction kws with
  | nil => exact fun acc h => h
  | cons kw kws ih =>
    intro acc h
    rw [List.foldl_cons]
    apply ih
    by_cases hc : cond kw
    · rw [if_pos hc]
      exact mapSet_nodup h
    · rw [if_neg hc]
      exact h

theorem tagScoresList_nodup (t d c : String) :
    ((tagScoresList t d c).map Prod.fst).Nodup := by
  have hspe : ((stageSpecialty t d c).map Prod.fst).Nodup := by
    unfold stageSpecialty
    apply addScoredTags_nodup
    unfold stageFeature
    apply addScoredTags_nodup
    unfold stageAudience
    apply addScoredTags_nodup
    unfold stageMarketing
    apply addScoredTags_nodup
    unfold stageCategory
    apply catFoldl_nodup
    exact List.nodup_nil
  simp only [tagScoresList]
  split
  · split
    · exact mapSet_nodup (mapSet_nodup (mapSet_nodup (mapSet_nodup
        (mapSet_nodup (mapSet_nodup hspe)))))
    · exact mapSet_nodup (mapSet_nodup (mapSet_nodup hspe))
  · split
    · exact mapSet_nodup (mapSet_nodup (mapSet_nodup hspe))
    · exact hspe

theorem mem_tagCandidates {t d c : String} {r : Nat → Nat} {tag : ScoredTag}
    (h : tag ∈ tagCandidates t d c r) :
    ∃ p ∈ tagScoresList t d c, ∃ i : Nat,
      tag = ⟨p.1, p.2, getEmojiForTag (r i) p.1 c⟩ := by
  unfold tagCandidates at h
  rw [List.mem_map] at h
  obtain ⟨q, hq, hfq⟩ := h
  rw [List.enum_eq_zip_range] at hq
  exact ⟨q.2, (List.of_mem_zip hq).2, q.1, hfq.symm⟩

theorem tagCandidates_map_text (t d c : String) (r : Nat → Nat) :
    (tagCandidates t d c r).map ScoredTag.text =
      (tagScoresList t d c).map Prod.fst := by
  unfold tagCandidates
  rw [List.map_map]
  rw [show (ScoredTag.text ∘ fun p : Nat × (String × Nat) =>
      (⟨p.2.1, p.2.2, getEmojiForTag (r p.1) p.2.1 c⟩ : ScoredTag)) =
      (Prod.fst ∘ Prod.snd) from rfl]
  rw [← List.map_map, List.enum_map_snd]

theorem insertionSort_filter_score (l : List ScoredTag) (s : Nat) :
    (List.insertionSort scoreDesc l).filter (fun a => a.score == s) =
      l.filter (fun a => a.score == s) := by
  have hallmem : ∀ a ∈ l.filter (fun a => a.score == s), a.score = s := by
    intro a ha
    simpa using (List.mem_filter.mp ha).2
  have hpw : (l.filter (fun a => a.score == s)).Pairwise scoreDesc := by
    apply List.pairwise_of_forall_mem_list
    intro x hx y hy
    unfold scoreDesc
    rw [hallmem x hx, hallmem y hy]
  have hsub1 : List.Sublist (l.filter (fun a => a.score == s))
      (List.insertionSort scoreDesc l) :=
    List.sublist_insertionSort hpw (List.filter_sublist l)
  have hsub2 : List.Sublist (l.filter (fun a => a.score == s))
      ((List.insertionSort scoreDesc l).filter (fun a => a.score == s)) := by
    have hstep := hsub1.filter (fun a => a.score == s)
    rwa [List.filter_eq_self.mpr
      (fun a ha => (List.mem_filter.mp ha).2)] at hstep
  have hperm : List.Perm
      ((List.insertionSort scoreDesc l).filter (fun a => a.score == s))
      (l.filter (fun a => a.score == s)) :=
    (List.perm_insertionSort scoreDesc l).filter _
  exact (hsub2.eq_of_length hperm.length_eq.symm).symm

/-- Claim C7: for every input and every random stream, the tag result set has
all scores within [1,10], at most 13 tags, non-increasing order by score,
ties (equal scores) appearing as a subsequence of the candidates in
first-computed order, and no duplicate text values; and for the specific
input (title "Personalized Story Book for Kids", description "A custom story
book gift for birthday", category "Books") it contains a tag with text
"personalized story book" or "story book" scoring at least 8. -/
theorem c7_tag_result_properties :
    (∀ (t d c : String) (r : Nat → Nat), ∀ tag ∈ (generateTags t d c r).1,
      1 ≤ tag.score ∧ tag.score ≤ 10) ∧
    (∀ (t d c : String) (r : Nat → Nat), (generateTags t d c r).1.length ≤ 13) ∧
    (∀ (t d c : String) (r : Nat → Nat),
      (generateTags t d c r).1.Pairwise scoreDesc) ∧
    (∀ (t d c : String) (r : Nat → Nat) (s : Nat),
      List.Sublist ((generateTags t d c r).1.filter (fun a => a.score == s))
        ((tagCandidates t d c r).filter (fun a => a.score == s))) ∧
    (∀ (t d c : String) (r : Nat → Nat),
      ((generateTags t d c r).1.map ScoredTag.text).Nodup) ∧
    (∃ tag ∈ (generateTags "Personalized Story Book for Kids"
        "A custom story book gift for birthday" "Books" (fun _ => 0)).1,
      (tag.text = "personalized story book" ∨ tag.text = "story book") ∧
      8 ≤ tag.score) := by
  have hgen : ∀ (t d c : String) (r : Nat → Nat), (generateTags t d c r).1 =
      (List.insertionSort scoreDesc (tagCandidates t d c r)).take 13 :=
    fun _ _ _ _ => rfl
  refine ⟨?_, ?_, ?_, ?_, ?_, ?_⟩
  · intro t d c r tag htag
    rw [hgen] at htag
    have h1 : tag ∈ List.insertionSort scoreDesc (tagCandidates t d c r) :=
      List.mem_of_mem_take htag
    rw [List.mem_insertionSort] at h1
    obtain ⟨p, hp, i, rfl⟩ := mem_tagCandidates h1
    exact tagScoresList_bounds t d c p hp
  · intro t d c r
    rw [hgen, List.length_take]
    exact min_le_left _ _
  · intro t d c r
    rw [hgen]
    exact (List.sorted_insertionSort scoreDesc _).sublist (List.take_sublist _ _)
  · intro t d c r s
    rw [hgen]
    have h1 := (List.take_sublist 13
      (List.insertionSort scoreDesc (tagCandidates t d c r))).filter
      (fun a => a.score == s)
    rwa [insertionSort_filter_score] at h1
  · intro t d c r
    rw [hgen]
    have hnd : ((tagCandidates t d c r).map ScoredTag.text).Nodup := by
      rw [tagCandidates_map_text]
      exact tagScoresList_nodup t d c
    have hnd2 : ((List.insertionSort scoreDesc
        (tagCandidates t d c r)).map ScoredTag.text).Nodup :=
      (((List.perm_insertionSort scoreDesc _).map ScoredTag.text).nodup_iff).mpr hnd
    rw [List.map_take]
    exact hnd2.sublist (List.take_sublist _ _)
  · decide

theorem c7_witness :
    (1 ≤ (⟨"personalized gift", 10, "🎁"⟩ : ScoredTag).score ∧
      (⟨"personalized gift", 10, "🎁"⟩ : ScoredTag).score ≤ 10) ∧
    (generateTags "Personalized Story Book for Kids"
      "A custom story book gift for birthday" "Books" (fun _ => 0)).1.length ≤ 13 :=
  ⟨c7_tag_result_properties.1 "Personalized Story Book for Kids"
      "A custom story book gift for birthday" "Books" (fun _ => 0)
      ⟨"personalized gift", 10, "🎁"⟩ (by decide),
   c7_tag_result_properties.2.1 "Personalized Story Book for Kids"
      "A custom story book gift for birthday" "Books" (fun _ => 0)⟩

theorem generateTags_map_pair (t d c : String) (r : Nat → Nat) :
    (generateTags t d c r).1.map (fun x => (x.text, x.score)) =
      (List.insertionSort pairScoreDesc
        ((tagScoresList t d c).enum.map (fun p => (p.2.1, p.2.2)))).take 13 := by
  show ((List.insertionSort scoreDesc (tagCandidates t d c r)).take 13).map
      (fun x => (x.text, x.score)) = _
  rw [List.map_take]
  rw [List.map_insertionSort scoreDesc pairScoreDesc (fun x : ScoredTag => (x.text, x.score)) _ (fun a _ b _ => Iff.rfl)]
  have hmap : (tagCandidates t d c r).map (fun x => (x.text, x.score)) =
      (tagScoresList t d c).enum.map (fun p => (p.2.1, p.2.2)) := by
    unfold tagCandidates
    rw [List.map_map]
    rfl
  rw [hmap]

theorem getEmojiForTag_mem (r : Nat) (tag category : String) :
    getEmojiForTag r tag category ∈ emojiChoices tag category := by
  unfold getEmojiForTag emojiChoices
  cases hf : EMOJI_MAPPINGS.find?
      (fun p => jsIncludes (lowerStr tag) (lowerStr p.1)) with
  | none => simp
  | some p =>
    simp only
    have hlen : 0 < p.2.length := by
      have hall : ∀ q ∈ EMOJI_MAPPINGS, 0 < q.2.length := by decide
      exact hall p (List.mem_of_find?_eq_some hf)
    have hidx : r % p.2.length < p.2.length := Nat.mod_lt _ hlen
    rw [List.getD_eq_getElem _ _ hidx]
    exact List.getElem_mem _

/-- Claim C10: for a fixed input, two invocations of the tag generator with
different random streams agree on the tag texts, the scores, their order and
the tips; each tag's emoji is drawn from the emoji list of the first concept
matching the tag (or the deterministic category fallback) — only that field
may vary between runs. -/
theorem c10_determinism_modulo_emoji (t d c : String) (r1 r2 : Nat → Nat) :
    (generateTags t d c r1).1.map (fun x => (x.text, x.score)) =
      (generateTags t d c r2).1.map (fun x => (x.text, x.score)) ∧
    (generateTags t d c r1).2 = (generateTags t d c r2).2 ∧
    (∀ tag ∈ (generateTags t d c r1).1, tag.emoji ∈ emojiChoices tag.text c) := by
  refine ⟨?_, rfl, ?_⟩
  · rw [generateTags_map_pair t d c r1, generateTags_map_pair t d c r2]
  · intro tag htag
    have h1 : tag ∈ tagCandidates t d c r1 := by
      have h2 : tag ∈ List.insertionSort scoreDesc (tagCandidates t d c r1) :=
        List.mem_of_mem_take htag
      rwa [List.mem_insertionSort] at h2
    obtain ⟨p, hp, i, rfl⟩ := mem_tagCandidates h1
    exact getEmojiForTag_mem (r1 i) p.1 c

theorem c10_witness :
    (generateTags "Personalized Story Book for Kids"
        "A custom story book gift for birthday" "Books" (fun _ => 0)).1.map
        (fun x => (x.text, x.score)) =
      (generateTags "Personalized Story Book for Kids"
        "A custom story book gift for birthday" "Books" (fun _ => 1)).1.map
        (fun x => (x.text, x.score)) ∧
    "🎁" ∈ emojiChoices "personalized gift" "Books" :=
  ⟨(c10_determinism_modulo_emoji "Personalized Story Book for Kids"
      "A custom story book gift for birthday" "Books" (fun _ => 0) (fun _ => 1)).1,
   (c10_determinism_modulo_emoji "Personalized Story Book for Kids"
      "A custom story book gift for birthday" "Books" (fun _ => 0) (fun _ => 1)).2.2
     ⟨"personalized gift", 10, "🎁"⟩ (by decide)⟩

/-- Claim C9, counterexample: for title "handmade zodiac art", description
"astrology horoscope stars celestial decor", category "Art", the scored
generator (`DatabaseStorage.generateTags`) returns a nonempty tag list whose
top-3 tags (astrology, horoscope, handmade) are mentioned by name in none of
the five advisory tips — the tips are fixed templates (plus a category
mention), so no tip references the top-3 computed tags. -/
theorem c9_counterexample :
    (generateTags "handmade zodiac art" "astrology horoscope stars celestial decor"
        "Art" (fun _ => 0)).1.length = 5 ∧
    ((generateTags "handmade zodiac art" "astrology horoscope stars celestial decor"
        "Art" (fun _ => 0)).1.take 3).all
      (fun tag =>
        ((generateTags "handmade zodiac art"
            "astrology horoscope stars celestial decor" "Art" (fun _ => 0)).2).all
          (fun tip => !(jsIncludes tip tag.text))) = true := by
  constructor
  · decide
  · decide

theorem jsIncludes_of_IsInfix {hay needle : String}
    (h : List.IsInfix needle.data hay.data) : jsIncludes hay needle = true :=
  (listContains_iff _ _).mpr h

theorem mem_joinComma_IsInfix :
    ∀ (l : List String) (x : String), x ∈ l →
      List.IsInfix x.data (joinComma l).data
  | [], x, h => absurd h (List.not_mem_nil x)
  | [y], x, h => by
    rw [List.mem_singleton] at h
    subst h
    exact List.infix_refl _
  | y :: z :: l, x, h => by
    rcases List.mem_cons.mp h with h1 | h2
    · subst h1
      show List.IsInfix x.data ((x ++ ", " ++ joinComma (z :: l))).data
      rw [String.data_append, String.data_append]
      exact ⟨[], (", ").data ++ (joinComma (z :: l)).data, by simp⟩
    · have hrec := mem_joinComma_IsInfix (z :: l) x h2
      show List.IsInfix x.data ((y ++ ", " ++ joinComma (z :: l))).data
      rw [String.data_append, String.data_append]
      exact hrec.trans (List.suffix_append _ _).isInfix

/-- Claim C9, amended: the simple `MemStorage.generateTags` revision does emit
a tip referencing the top-3 computed tags by name (its fourth tip embeds the
comma-joined top-3 list, so each top-3 tag occurs verbatim inside it); the
scored `DatabaseStorage.generateTags` revision does not (see the
counterexample), its tips being fixed templates. -/
theorem c9_amended (t d c : String) :
    ∃ tip ∈ (memGenerateTags t d c).2,
      ∀ tag ∈ (memGenerateTags t d c).1.take 3, jsIncludes tip tag = true := by
  refine ⟨"Consider adding these popular tags: " ++
    joinComma ((memGenerateTags t d c).1.take 3), ?_, ?_⟩
  · show _ ∈ (memGenerateTags t d c).2
    refine List.mem_cons_of_mem _ (List.mem_cons_of_mem _
      (List.mem_cons_of_mem _ ?_))
    exact List.mem_singleton.mpr rfl
  · intro tag htag
    apply jsIncludes_of_IsInfix
    have hinfix := mem_joinComma_IsInfix _ tag htag
    show List.IsInfix tag.data (("Consider adding these popular tags: " ++
      joinComma ((memGenerateTags t d c).1.take 3))).data
    rw [String.data_append]
    exact hinfix.trans (List.suffix_append _ _).isInfix

theorem c4_amended_witness :
    generateTagKey "a:b" "c" "d" = generateTagKey "a" "b:c" "d" ↔
      "a:b" ++ ":" ++ "c" ++ ":" ++ "d" = "a" ++ ":" ++ "b:c" ++ ":" ++ "d" :=
  c4_amended "a:b" "c" "d" "a" "b:c" "d"

theorem c9_amended_witness :
    ∃ tip ∈ (memGenerateTags "Handmade custom necklace" "a unique gift" "Jewelry").2,
      ∀ tag ∈ (memGenerateTags "Handmade custom necklace" "a unique gift"
        "Jewelry").1.take 3, jsIncludes tip tag = true :=
  c9_amended "Handmade custom necklace" "a unique gift" "Jewelry"

end EtsyBoost
